import Mathlib

/-!
Verification of the instrumentation-and-caching layer in front of a key-value
store (files exercise.py and web.py of the repository).

The embedding models:
- the Redis key space as a function from string keys to optional values
  (plain strings or lists for exercise.py; strings with an optional absolute
  expiry timestamp for web.py);
- Python byte strings and decoded strings both as Lean String values
  (UTF-8 decoding is the identity in this byte model);
- the serialization performed by the redis client when storing a value
  (str for int, repr for float, identity for str and bytes);
- the builtin int() conversion as an ASCII-whitespace-stripping,
  optionally signed, all-digits parser;
- the uuid4 address generator as an injective supply of fresh keys drawn
  from a counter, distinct from every reserved instrumentation key;
- wall-clock time (for the TTL cache of web.py) as a natural-number clock
  carried in the state, advanced explicitly between calls.
-/

/-! ## Decimal digits: a model of str(int) and int() -/

def digitChar : Nat → Char
  | 0 => '0'
  | 1 => '1'
  | 2 => '2'
  | 3 => '3'
  | 4 => '4'
  | 5 => '5'
  | 6 => '6'
  | 7 => '7'
  | 8 => '8'
  | _ => '9'

def digitVal (c : Char) : Nat := c.toNat - 48

def isDigitChar (c : Char) : Bool := '0' ≤ c && c ≤ '9'

/-- Fuel-bounded digit expansion; fuel n + 1 always suffices for n. -/
def natDigitsAux : Nat → Nat → List Char
  | 0, _ => []
  | f + 1, n =>
    if n < 10 then [digitChar n]
    else natDigitsAux f (n / 10) ++ [digitChar (n % 10)]

def natDigits (n : Nat) : List Char := natDigitsAux (n + 1) n

/-- Decimal digit string of a natural number, most significant first. -/
def natStr (n : Nat) : String := String.mk (natDigits n)

/-- Model of Python str on an integer: standard decimal, with a leading
minus sign for negative numbers. -/
def intStr : Int → String
  | Int.ofNat m => natStr m
  | Int.negSucc m => "-" ++ natStr (m + 1)

def digitsVal (cs : List Char) : Nat :=
  cs.foldl (fun a c => 10 * a + digitVal c) 0

/-- ASCII whitespace stripped by Python int() (model restricted to ASCII). -/
def wspChar (c : Char) : Bool :=
  c = ' ' || c = '\t' || c = '\n' || c = '\r' || c = '\x0b' || c = '\x0c'

def stripWsp (l : List Char) : List Char :=
  ((l.dropWhile wspChar).reverse.dropWhile wspChar).reverse

def parseDigits (l : List Char) : Option Nat :=
  if !l.isEmpty && l.all isDigitChar then some (digitsVal l) else none

def parseSigned : List Char → Option Int
  | [] => none
  | c :: rest =>
    if c = '-' then (parseDigits rest).map (fun m => -(m : Int))
    else if c = '+' then (parseDigits rest).map (fun m => (m : Int))
    else (parseDigits (c :: rest)).map (fun m => (m : Int))

/-- Model of the builtin int() applied to the text of a byte string:
strips surrounding ASCII whitespace, accepts an optional sign followed by
one or more decimal digits, and rejects everything else.  (Digit-group
underscores accepted by Python are not modelled; no claim depends on
them.) -/
def pyIntParse (s : String) : Option Int := parseSigned (stripWsp s.data)

/-! ### Correctness of the digit printer against the parser -/

theorem parseSigned_no_sign (c : Char) (t : List Char) (hcm : c ≠ '-') (hcp : c ≠ '+') :
    parseSigned (c :: t) = (parseDigits (c :: t)).map (fun m => (m : Int)) := by
  simp [parseSigned, hcm, hcp]

theorem parseSigned_neg (t : List Char) :
    parseSigned ('-' :: t) = (parseDigits t).map (fun m => -(m : Int)) := by
  simp [parseSigned]

theorem digitVal_digitChar (d : Nat) (h : d < 10) : digitVal (digitChar d) = d := by
  interval_cases d <;> rfl

theorem isDigitChar_digitChar (d : Nat) : isDigitChar (digitChar d) = true := by
  unfold digitChar
  split <;> rfl

theorem digitsVal_append_one (l : List Char) (c : Char) :
    digitsVal (l ++ [c]) = 10 * digitsVal l + digitVal c := by
  simp [digitsVal, List.foldl_append]

theorem natDigitsAux_spec (fuel : Nat) : ∀ n, n < fuel →
    digitsVal (natDigitsAux fuel n) = n ∧
    natDigitsAux fuel n ≠ [] ∧
    (natDigitsAux fuel n).all isDigitChar = true := by
  induction fuel with
  | zero => intro n h; omega
  | succ f ih =>
    intro n h
    by_cases h10 : n < 10
    · refine ⟨?_, ?_, ?_⟩ <;> simp [natDigitsAux, h10, digitsVal]
      · exact digitVal_digitChar n h10
      · exact isDigitChar_digitChar n
    · have hdiv : n / 10 < n := Nat.div_lt_self (by omega) (by omega)
      have hf : n / 10 < f := by omega
      obtain ⟨ihv, ihne, ihall⟩ := ih (n / 10) hf
      refine ⟨?_, ?_, ?_⟩
      · rw [natDigitsAux]
        simp only [h10, if_false]
        rw [digitsVal_append_one, ihv, digitVal_digitChar (n % 10) (by omega)]
        omega
      · rw [natDigitsAux]
        simp [h10, ihne]
      · rw [natDigitsAux]
        simp only [h10, if_false, List.all_append, Bool.and_eq_true]
        refine ⟨ihall, ?_⟩
        simp [isDigitChar_digitChar]

theorem digitsVal_natDigits (n : Nat) : digitsVal (natDigits n) = n :=
  (natDigitsAux_spec (n + 1) n (by omega)).1

theorem natDigits_ne_nil (n : Nat) : natDigits n ≠ [] :=
  (natDigitsAux_spec (n + 1) n (by omega)).2.1

theorem natDigits_all_digit (n : Nat) : (natDigits n).all isDigitChar = true :=
  (natDigitsAux_spec (n + 1) n (by omega)).2.2

theorem isDigit_not_wsp (c : Char) (h : isDigitChar c = true) : wspChar c = false := by
  simp only [isDigitChar, Bool.and_eq_true, decide_eq_true_eq] at h
  obtain ⟨h1, h2⟩ := h
  simp only [wspChar, Bool.or_eq_false_iff, decide_eq_false_iff_not]
  refine ⟨⟨⟨⟨⟨?_, ?_⟩, ?_⟩, ?_⟩, ?_⟩, ?_⟩ <;> rintro rfl <;> revert h1 <;> decide

theorem dropWhile_all_false (p : Char → Bool) :
    ∀ l : List Char, (∀ c ∈ l, p c = false) → l.dropWhile p = l := by
  intro l h
  cases l with
  | nil => rfl
  | cons c t => simp [List.dropWhile, h c (by simp)]

theorem stripWsp_of_no_wsp (l : List Char) (h : ∀ c ∈ l, wspChar c = false) :
    stripWsp l = l := by
  unfold stripWsp
  rw [dropWhile_all_false wspChar l h]
  rw [dropWhile_all_false wspChar l.reverse (fun c hc => h c (List.mem_reverse.mp hc))]
  exact List.reverse_reverse l

theorem parseDigits_natDigits (n : Nat) : parseDigits (natDigits n) = some n := by
  unfold parseDigits
  have hne : natDigits n ≠ [] := natDigits_ne_nil n
  have hall : (natDigits n).all isDigitChar = true := natDigits_all_digit n
  simp [hall, List.isEmpty_iff, hne, digitsVal_natDigits]

theorem stripWsp_natDigits (n : Nat) : stripWsp (natDigits n) = natDigits n := by
  apply stripWsp_of_no_wsp
  intro c hc
  have hall := natDigits_all_digit n
  rw [List.all_eq_true] at hall
  exact isDigit_not_wsp c (hall c hc)

theorem pyIntParse_natStr (n : Nat) : pyIntParse (natStr n) = some (n : Int) := by
  unfold pyIntParse natStr
  have hdata : (String.mk (natDigits n)).data = natDigits n := rfl
  rw [hdata, stripWsp_natDigits]
  obtain ⟨c, t, hct⟩ : ∃ c t, natDigits n = c :: t := by
    cases hh : natDigits n with
    | nil => exact absurd hh (natDigits_ne_nil n)
    | cons c t => exact ⟨c, t, rfl⟩
  rw [hct]
  have hcd : isDigitChar c = true := by
    have hall := natDigits_all_digit n
    rw [hct, List.all_eq_true] at hall
    exact hall c (by simp)
  have hcm : c ≠ '-' := by rintro rfl; revert hcd; decide
  have hcp : c ≠ '+' := by rintro rfl; revert hcd; decide
  rw [parseSigned_no_sign c t hcm hcp, ← hct, parseDigits_natDigits]
  rfl

theorem pyIntParse_intStr (i : Int) : pyIntParse (intStr i) = some i := by
  cases i with
  | ofNat m => exact pyIntParse_natStr m
  | negSucc m =>
    unfold pyIntParse intStr
    have hdata : ("-" ++ natStr (m + 1)).data = '-' :: natDigits (m + 1) := by
      rw [String.data_append]
      rfl
    rw [hdata]
    have hstrip : stripWsp ('-' :: natDigits (m + 1)) = '-' :: natDigits (m + 1) := by
      apply stripWsp_of_no_wsp
      intro c hc
      rcases List.mem_cons.mp hc with h | h
      · subst h; decide
      · have hall := natDigits_all_digit (m + 1)
        rw [List.all_eq_true] at hall
        exact isDigit_not_wsp c (hall c h)
    rw [hstrip, parseSigned_neg, parseDigits_natDigits]
    simp [Int.negSucc_eq]

/-! ## Embedding of exercise.py -/

namespace Exercise

/-- Python values accepted by Cache.store (Union[str, bytes, int, float]).
Byte strings are modelled as Lean strings (one character per byte); a float
is identified by its repr string, which is how the redis client serializes
it. -/
inductive PyVal where
  | pystr (s : String)
  | pybytes (b : String)
  | pyint (n : Int)
  | pyfloat (r : String)
deriving DecidableEq

/-- Serialization applied by the redis client when a value is written:
str and bytes are stored verbatim (UTF-8 in the byte model is the
identity), an int is stored as its decimal text, a float as its repr. -/
def serialize : PyVal → String
  | .pystr s => s
  | .pybytes b => b
  | .pyint n => intStr n
  | .pyfloat r => r

/-- Model of Python repr for a single value (quote escaping inside string
contents is not modelled; the history entries are only compared as opaque
strings). -/
def quoteChar : String := String.mk [Char.ofNat 39]

def reprPy : PyVal → String
  | .pystr s => quoteChar ++ s ++ quoteChar
  | .pybytes b => "b" ++ quoteChar ++ b ++ quoteChar
  | .pyint n => intStr n
  | .pyfloat r => r

/-- Model of str(args) for the one-element positional argument tuple that a
Cache.store call receives. -/
def strArgs1 (v : PyVal) : String := "(" ++ reprPy v ++ ",)"

/-- A Redis value: either a plain string or a list (the two kinds used by
exercise.py). -/
inductive RVal where
  | rstr (s : String)
  | rlist (l : List String)
deriving DecidableEq

/-- Write effects issued to Redis, recorded in order; used to state in which
order the decorators fire. -/
inductive Ev where
  | evIncr (k : String)
  | evSet (k v : String)
  | evRpush (k v : String)
  | evFlush
deriving DecidableEq

/-- State of the embedding: the Redis key space, the ordered log of write
commands issued so far, and the supply counter of the uuid4 address
generator. -/
structure CState where
  kv : String → Option RVal
  log : List Ev
  uuidCtr : Nat

def upd (f : String → Option RVal) (k : String) (v : RVal) : String → Option RVal :=
  fun k2 => if k2 = k then some v else f k2

/-- Redis GET restricted to string values (GET on a list key errors in
Redis; the program never does it, and the model reads it as absent). -/
def rget (k : String) (s : CState) : Option String :=
  match s.kv k with
  | some (RVal.rstr v) => some v
  | _ => none

/-- Redis LRANGE key 0 -1: the whole list, empty when the key is absent. -/
def lrangeAll (k : String) (s : CState) : List String :=
  match s.kv k with
  | some (RVal.rlist l) => l
  | _ => []

/-- Integer reading of a counter key: the stored decimal text, or 0 when
the key is absent. -/
def counterValue (k : String) (s : CState) : Int :=
  ((rget k s).bind pyIntParse).getD 0

/-- Redis SET of a string value. -/
def rset (k v : String) (s : CState) : CState :=
  { s with kv := upd s.kv k (RVal.rstr v), log := s.log ++ [Ev.evSet k v] }

/-- Redis INCR: parse the current value (0 when absent) and store the
successor as decimal text.  (INCR on a non-integer value errors in Redis;
the program only ever applies INCR to its own counter keys.) -/
def rincr (k : String) (s : CState) : Int × CState :=
  let cur := counterValue k s
  (cur + 1,
   { s with kv := upd s.kv k (RVal.rstr (intStr (cur + 1))),
            log := s.log ++ [Ev.evIncr k] })

/-- Redis RPUSH: append to the list at the key, creating it when absent. -/
def rpush (k v : String) (s : CState) : CState :=
  { s with kv := upd s.kv k (RVal.rlist (lrangeAll k s ++ [v])),
           log := s.log ++ [Ev.evRpush k v] }

/-- Redis FLUSHDB: every key becomes absent. -/
def flushdb (s : CState) : CState :=
  { s with kv := fun _ => none, log := s.log ++ [Ev.evFlush] }

inductive PyErr where
  | valueError
deriving DecidableEq

/-- Type of a (possibly failing) store-like method as seen by the two
decorators: from a state and the single positional argument to a result
string together with the state after the call.  A Python exception is an
error result; state changes made before the raise persist. -/
def Method : Type :=
  CState → PyVal → Except PyErr String × CState

/-- Decorator count_calls: INCR the counter at the qualified name, then
delegate. -/
def count_calls (qualname : String) (method : Method) : Method :=
  fun s a => method (rincr qualname s).2 a

/-- Decorator call_history: RPUSH str(args) to the inputs list, delegate,
and on successful return RPUSH str(result) to the outputs list (str of the
string result is the result itself). -/
def call_history (qualname : String) (method : Method) : Method :=
  fun s a =>
    let s1 := rpush (qualname ++ ":inputs") (strArgs1 a) s
    match method s1 a with
    | (Except.ok r, s2) => (Except.ok r, rpush (qualname ++ ":outputs") r s2)
    | (Except.error e, s2) => (Except.error e, s2)

/-- Fresh key produced by the uuid4 address generator, modelled as an
injective supply indexed by the state's counter. -/
def uuidKey (n : Nat) : String := "uuid-" ++ natStr n

/-- Undecorated body of Cache.store: draw a fresh key, SET the serialized
value under it, return the key. -/
def store_impl : Method :=
  fun s a =>
    let key := uuidKey s.uuidCtr
    (Except.ok key, rset key (serialize a) { s with uuidCtr := s.uuidCtr + 1 })

/-- Qualified name of Cache.store, the namespace root of its counter and
history keys. -/
def storeName : String := "Cache.store"

def inKey : String := storeName ++ ":inputs"

def outKey : String := storeName ++ ":outputs"

/-- Cache.store as exported: call_history applied outside count_calls,
matching the decorator stack in the source. -/
def store : Method := call_history storeName (count_calls storeName store_impl)

/-- Type of the optional conversion function passed to Cache.get. -/
def Converter : Type := String → Except PyErr PyVal

/-- Cache.get: read the raw bytes, return an explicit absent value when the
key is missing, otherwise apply the converter when one is given. -/
def get (key : String) (fn : Option Converter) (s : CState) :
    Except PyErr (Option PyVal) × CState :=
  match rget key s with
  | none => (Except.ok none, s)
  | some v =>
    match fn with
    | none => (Except.ok (some (PyVal.pybytes v)), s)
    | some f =>
      match f v with
      | Except.ok x => (Except.ok (some x), s)
      | Except.error e => (Except.error e, s)

/-- Cache.get_str: get with a UTF-8 decoding converter (identity on the
byte model, always succeeding). -/
def get_str (key : String) (s : CState) : Except PyErr (Option PyVal) × CState :=
  get key (some (fun d => Except.ok (PyVal.pystr d))) s

/-- Converter of Cache.get_int: the builtin int, raising ValueError on
non-numeric text. -/
def intConverter : Converter := fun d =>
  match pyIntParse d with
  | some n => Except.ok (PyVal.pyint n)
  | none => Except.error PyErr.valueError

def get_int (key : String) (s : CState) : Except PyErr (Option PyVal) × CState :=
  get key (some intConverter) s

/-- Cache.__init__: connect and FLUSHDB. -/
def cacheInit (s : CState) : CState := flushdb s

/-- One line of the replay trace. -/
def formatLine (qualname i o : String) : String :=
  qualname ++ "(*" ++ i ++ ") -> " ++ o

/-- Function replay: read both history lists in full, print the summary
line, then one line per positionally paired input/output.  The returned
state is the state after the two LRANGE reads, which do not write. -/
def replay (qualname : String) (s : CState) : List String × CState :=
  let inputs := lrangeAll (qualname ++ ":inputs") s
  let outputs := lrangeAll (qualname ++ ":outputs") s
  ((qualname ++ " was called " ++ natStr inputs.length ++ " times:") ::
     List.zipWith (fun i o => formatLine qualname i o) inputs outputs,
   s)

/-- Iterated calls to the decorated store, in order. -/
def storeMany : List PyVal → CState → CState
  | [], s => s
  | v :: vs, s => storeMany vs (store s v).2

/-- The keys that count successive store calls draw from the uuid supply
starting at a given counter value. -/
def genKeys (ctr : Nat) : Nat → List String
  | 0 => []
  | n + 1 => uuidKey ctr :: genKeys (ctr + 1) n

end Exercise

/-! ## Key-space isolation and primitive observation lemmas -/

namespace Exercise

theorem ne_of_data_head (a b : String) (c d : Char) (la lb : List Char)
    (ha : a.data = c :: la) (hb : b.data = d :: lb) (hcd : c ≠ d) : a ≠ b := by
  intro h
  have h2 : c :: la = d :: lb := by rw [← ha, ← hb, h]
  injection h2 with h3 _
  exact hcd h3

theorem uuidKey_data (n : Nat) :
    (uuidKey n).data = 'u' :: ('u' :: 'i' :: 'd' :: '-' :: natDigits n) := by
  show ("uuid-" ++ natStr n).data = _
  rw [String.data_append]
  rfl

theorem uuidKey_ne_storeName (n : Nat) : uuidKey n ≠ storeName :=
  ne_of_data_head _ _ 'u' 'C' _ _ (uuidKey_data n) rfl (by decide)

theorem uuidKey_ne_inKey (n : Nat) : uuidKey n ≠ inKey :=
  ne_of_data_head _ _ 'u' 'C' _ _ (uuidKey_data n) rfl (by decide)

theorem uuidKey_ne_outKey (n : Nat) : uuidKey n ≠ outKey :=
  ne_of_data_head _ _ 'u' 'C' _ _ (uuidKey_data n) rfl (by decide)

theorem inKey_ne_storeName : inKey ≠ storeName := by decide

theorem outKey_ne_storeName : outKey ≠ storeName := by decide

theorem inKey_ne_outKey : inKey ≠ outKey := by decide

theorem kv_rset_same (k v : String) (s : CState) :
    (rset k v s).kv k = some (RVal.rstr v) := by
  simp [rset, upd]

theorem kv_rset_ne (k v k2 : String) (s : CState) (h : k2 ≠ k) :
    (rset k v s).kv k2 = s.kv k2 := by
  simp [rset, upd, h]

theorem kv_rincr_ne (k k2 : String) (s : CState) (h : k2 ≠ k) :
    ((rincr k s).2).kv k2 = s.kv k2 := by
  simp [rincr, upd, h]

theorem kv_rpush_ne (k v k2 : String) (s : CState) (h : k2 ≠ k) :
    (rpush k v s).kv k2 = s.kv k2 := by
  simp [rpush, upd, h]

theorem rget_congr_kv (k : String) (s s2 : CState) (h : s2.kv k = s.kv k) :
    rget k s2 = rget k s := by
  simp [rget, h]

theorem lrangeAll_congr_kv (k : String) (s s2 : CState) (h : s2.kv k = s.kv k) :
    lrangeAll k s2 = lrangeAll k s := by
  simp [lrangeAll, h]

theorem counterValue_congr_kv (k : String) (s s2 : CState) (h : s2.kv k = s.kv k) :
    counterValue k s2 = counterValue k s := by
  simp [counterValue, rget, h]

theorem lrangeAll_rpush_same (k v : String) (s : CState) :
    lrangeAll k (rpush k v s) = lrangeAll k s ++ [v] := by
  simp [rpush, upd, lrangeAll]

theorem counterValue_rincr_same (k : String) (s : CState) :
    counterValue k ((rincr k s).2) = counterValue k s + 1 := by
  simp [rincr, counterValue, rget, upd, pyIntParse_intStr]

theorem rincr_fst (k : String) (s : CState) :
    (rincr k s).1 = counterValue k s + 1 := rfl

theorem uuidCtr_rset (k v : String) (s : CState) : (rset k v s).uuidCtr = s.uuidCtr := rfl

theorem uuidCtr_rincr (k : String) (s : CState) : ((rincr k s).2).uuidCtr = s.uuidCtr := rfl

theorem uuidCtr_rpush (k v : String) (s : CState) : (rpush k v s).uuidCtr = s.uuidCtr := rfl

/-- Everything a single call to the decorated Cache.store does, stated as
observations of the resulting state: the returned key is the fresh uuid
key, the uuid supply advances by one, the inputs and outputs lists each
gain one entry, the counter gains one, the record is written under the
fresh key, the write log gains the four writes in decorator order, and no
other key changes. -/
theorem store_step (s : CState) (v : PyVal) :
    (store s v).1 = Except.ok (uuidKey s.uuidCtr) ∧
    (store s v).2.uuidCtr = s.uuidCtr + 1 ∧
    lrangeAll inKey (store s v).2 = lrangeAll inKey s ++ [strArgs1 v] ∧
    lrangeAll outKey (store s v).2 = lrangeAll outKey s ++ [uuidKey s.uuidCtr] ∧
    counterValue storeName (store s v).2 = counterValue storeName s + 1 ∧
    rget (uuidKey s.uuidCtr) (store s v).2 = some (serialize v) ∧
    (store s v).2.log = s.log ++
      [Ev.evRpush inKey (strArgs1 v), Ev.evIncr storeName,
       Ev.evSet (uuidKey s.uuidCtr) (serialize v),
       Ev.evRpush outKey (uuidKey s.uuidCtr)] ∧
    (∀ k, k ≠ storeName → k ≠ inKey → k ≠ outKey → k ≠ uuidKey s.uuidCtr →
      (store s v).2.kv k = s.kv k) := by
  have h1 := uuidKey_ne_storeName s.uuidCtr
  have h2 := uuidKey_ne_inKey s.uuidCtr
  have h3 := uuidKey_ne_outKey s.uuidCtr
  refine ⟨rfl, rfl, ?_, ?_, ?_, ?_, ?_, ?_⟩
  · show lrangeAll inKey
      (rpush outKey (uuidKey s.uuidCtr)
        (rset (uuidKey s.uuidCtr) (serialize v)
          { (rincr storeName (rpush inKey (strArgs1 v) s)).2 with
              uuidCtr := s.uuidCtr + 1 })) = _
    simp only [lrangeAll, rpush, rincr, rset, upd, counterValue, rget]
    simp +decide [h2.symm, inKey_ne_outKey.symm]
  · show lrangeAll outKey
      (rpush outKey (uuidKey s.uuidCtr)
        (rset (uuidKey s.uuidCtr) (serialize v)
          { (rincr storeName (rpush inKey (strArgs1 v) s)).2 with
              uuidCtr := s.uuidCtr + 1 })) = _
    simp only [lrangeAll, rpush, rincr, rset, upd, counterValue, rget]
    simp +decide [h3.symm]
  · show counterValue storeName
      (rpush outKey (uuidKey s.uuidCtr)
        (rset (uuidKey s.uuidCtr) (serialize v)
          { (rincr storeName (rpush inKey (strArgs1 v) s)).2 with
              uuidCtr := s.uuidCtr + 1 })) = _
    simp only [counterValue, rget, lrangeAll, rpush, rincr, rset, upd]
    simp +decide [h1.symm, pyIntParse_intStr]
  · show rget (uuidKey s.uuidCtr)
      (rpush outKey (uuidKey s.uuidCtr)
        (rset (uuidKey s.uuidCtr) (serialize v)
          { (rincr storeName (rpush inKey (strArgs1 v) s)).2 with
              uuidCtr := s.uuidCtr + 1 })) = _
    simp only [rget, rpush, rincr, rset, upd]
    simp [h3]
  · show (rpush outKey (uuidKey s.uuidCtr)
      (rset (uuidKey s.uuidCtr) (serialize v)
        { (rincr storeName (rpush inKey (strArgs1 v) s)).2 with
            uuidCtr := s.uuidCtr + 1 })).log = _
    simp [rpush, rincr, rset]
  · intro k hk1 hk2 hk3 hk4
    show (rpush outKey (uuidKey s.uuidCtr)
      (rset (uuidKey s.uuidCtr) (serialize v)
        { (rincr storeName (rpush inKey (strArgs1 v) s)).2 with
            uuidCtr := s.uuidCtr + 1 })).kv k = s.kv k
    simp [rpush, rincr, rset, upd, hk1, hk2, hk3, hk4]

end Exercise

/-! ## Helper lemmas for the exercise.py claims -/

namespace Exercise

/-- Base state used by concrete witnesses and counterexamples. -/
def cs0 : CState := { kv := fun _ => none, log := [], uuidCtr := 0 }

theorem string_append_right_inj (a b c : String) (h : a ++ b = a ++ c) : b = c := by
  have h2 : a.data ++ b.data = a.data ++ c.data := by
    rw [← String.data_append, ← String.data_append, h]
  exact String.ext (List.append_cancel_left h2)

theorem in_ne_out (qn : String) : qn ++ ":inputs" ≠ qn ++ ":outputs" := by
  intro h
  have h2 := string_append_right_inj qn ":inputs" ":outputs" h
  exact absurd h2 (by decide)

theorem header_zero (qn : String) :
    qn ++ " was called " ++ natStr 0 ++ " times:" = qn ++ " was called 0 times:" := by
  apply String.ext
  simp only [String.data_append, List.append_assoc]
  congr 1

theorem zipWith_getElem_some (f : String → String → String) :
    ∀ (l1 l2 : List String) (i : Nat) (a b : String),
      l1[i]? = some a → l2[i]? = some b →
      (List.zipWith f l1 l2)[i]? = some (f a b) := by
  intro l1
  induction l1 with
  | nil => intro l2 i a b h1 _; simp at h1
  | cons x xs ih =>
    intro l2 i a b h1 h2
    cases l2 with
    | nil => simp at h2
    | cons y ys =>
      cases i with
      | zero =>
        simp at h1 h2
        simp [List.zipWith, h1, h2]
      | succ j =>
        simp at h1 h2
        simpa [List.zipWith] using ih ys j a b h1 h2

theorem genKeys_length (c : Nat) : ∀ n, (genKeys c n).length = n := by
  intro n
  induction n generalizing c with
  | zero => rfl
  | succ m ih => simp [genKeys, ih]

/-- Accumulated effect of a sequence of decorated store calls, relative to
an arbitrary starting state. -/
theorem storeMany_spec (vs : List PyVal) : ∀ s : CState,
    counterValue storeName (storeMany vs s)
      = counterValue storeName s + vs.length ∧
    lrangeAll inKey (storeMany vs s) = lrangeAll inKey s ++ vs.map strArgs1 ∧
    lrangeAll outKey (storeMany vs s)
      = lrangeAll outKey s ++ genKeys s.uuidCtr vs.length ∧
    (storeMany vs s).uuidCtr = s.uuidCtr + vs.length := by
  induction vs with
  | nil => intro s; simp [storeMany, genKeys]
  | cons v vs ih =>
    intro s
    obtain ⟨hc, hi, ho, hu⟩ := ih (store s v).2
    obtain ⟨_, hctr, hin, hout, hcnt, _, _, _⟩ := store_step s v
    refine ⟨?_, ?_, ?_, ?_⟩
    · rw [storeMany, hc, hcnt]
      simp only [List.length_cons]
      push_cast
      ring
    · rw [storeMany, hi, hin]
      simp
    · rw [storeMany, ho, hout, hctr]
      simp [genKeys]
    · rw [storeMany, hu, hctr]
      simp only [List.length_cons]
      omega

theorem counterValue_init (s : CState) (k : String) :
    counterValue k (cacheInit s) = 0 := by
  simp [cacheInit, flushdb, counterValue, rget]

theorem lrangeAll_init (s : CState) (k : String) :
    lrangeAll k (cacheInit s) = [] := by
  simp [cacheInit, flushdb, lrangeAll]

end Exercise

/-! ## Claims about exercise.py -/

namespace Exercise

/-- C3: after any sequence of N successful calls to the decorated store on
a freshly constructed Cache, the counter at the operation identity equals
N, and the inputs and outputs lists hold exactly N entries in call order:
the serialized argument of call i at position i of inputs, and the key
returned by call i at position i of outputs. -/
theorem claim_c3_count_and_history (vs : List PyVal) (s0 : CState) :
    counterValue storeName (storeMany vs (cacheInit s0)) = vs.length ∧
    lrangeAll inKey (storeMany vs (cacheInit s0)) = vs.map strArgs1 ∧
    (lrangeAll inKey (storeMany vs (cacheInit s0))).length = vs.length ∧
    lrangeAll outKey (storeMany vs (cacheInit s0)) = genKeys s0.uuidCtr vs.length ∧
    (lrangeAll outKey (storeMany vs (cacheInit s0))).length = vs.length := by
  obtain ⟨hc, hi, ho, _⟩ := storeMany_spec vs (cacheInit s0)
  rw [counterValue_init] at hc
  rw [lrangeAll_init] at hi ho
  have hctr : (cacheInit s0).uuidCtr = s0.uuidCtr := rfl
  rw [hctr] at ho
  refine ⟨by rw [hc]; ring, by simpa using hi, ?_, by simpa using ho, ?_⟩
  · rw [hi]; simp
  · rw [ho]; simp [genKeys_length]

def isIncrEv : Ev → Bool
  | Ev.evIncr _ => true
  | _ => false

/-- C5: one call to the doubly decorated store issues its writes in the
order history-input, counter-increment, underlying set, history-output —
so the history wrapper is the outer layer enclosing the counted call, and
the counter is incremented exactly once per call. -/
theorem claim_c5_decorator_order (s : CState) (v : PyVal) :
    (store s v).2.log = s.log ++
      [Ev.evRpush inKey (strArgs1 v), Ev.evIncr storeName,
       Ev.evSet (uuidKey s.uuidCtr) (serialize v),
       Ev.evRpush outKey (uuidKey s.uuidCtr)] ∧
    (store s v).2.log.countP isIncrEv = s.log.countP isIncrEv + 1 := by
  obtain ⟨-, -, -, -, -, -, hlog, -⟩ := store_step s v
  refine ⟨hlog, ?_⟩
  rw [hlog, List.countP_append]
  simp [List.countP_cons, isIncrEv]

/-- C10: constructing a Cache flushes the whole backing store: afterwards
every key is absent, get returns the absent value for every key, every
history list is empty, every counter reads zero (and the next increment
yields 1), and replay reports zero calls. -/
theorem claim_c10_init_flushes (s : CState) (k qn : String) (fn : Option Converter) :
    (cacheInit s).kv k = none ∧
    get k fn (cacheInit s) = (Except.ok none, cacheInit s) ∧
    lrangeAll k (cacheInit s) = [] ∧
    counterValue k (cacheInit s) = 0 ∧
    (rincr k (cacheInit s)).1 = 1 ∧
    (replay qn (cacheInit s)).1 = [qn ++ " was called 0 times:"] := by
  refine ⟨rfl, ?_, lrangeAll_init s k, counterValue_init s k, ?_, ?_⟩
  · simp [get, rget, cacheInit, flushdb]
  · rw [rincr_fst, counterValue_init]
    omega
  · rw [replay]
    rw [lrangeAll_init, lrangeAll_init]
    simp [header_zero qn]

end Exercise

namespace Exercise

/-- C2 counterexample: storing the str value abc and reading it back with
no converter yields the raw byte string (the pybytes value), not the
original str value, so get does not return the stored value unchanged for
a non-bytes input. -/
theorem claim_c2_counterexample :
    (store (cacheInit cs0) (PyVal.pystr "abc")).1 = Except.ok "uuid-0" ∧
    (get "uuid-0" none (store (cacheInit cs0) (PyVal.pystr "abc")).2).1
      = Except.ok (some (PyVal.pybytes "abc")) ∧
    PyVal.pybytes "abc" ≠ PyVal.pystr "abc" := by
  refine ⟨rfl, rfl, by decide⟩

/-- C2 (amended): get of the key returned by store, with no converter,
returns the byte serialization of the stored value — which equals the
value itself exactly when the value is a byte string — and get of an
absent key returns the explicit absent value. -/
theorem claim_c2_roundtrip_amended (v : PyVal) (s : CState) (k : String)
    (fn : Option Converter) (hmiss : s.kv k = none) :
    (store s v).1 = Except.ok (uuidKey s.uuidCtr) ∧
    (get (uuidKey s.uuidCtr) none (store s v).2).1
      = Except.ok (some (PyVal.pybytes (serialize v))) ∧
    (∀ b, serialize (PyVal.pybytes b) = b) ∧
    get k fn s = (Except.ok none, s) := by
  obtain ⟨hkey, -, -, -, -, hget, -, -⟩ := store_step s v
  refine ⟨hkey, ?_, fun b => rfl, ?_⟩
  · simp only [get, hget]
  · have hr : rget k s = none := by simp [rget, hmiss]
    simp only [get, hr]

theorem claim_c2_roundtrip_amended_witness :
    (cacheInit cs0).kv "nope" = none ∧
    ((store (cacheInit cs0) (PyVal.pyint 7)).1
        = Except.ok (uuidKey (cacheInit cs0).uuidCtr) ∧
      (get (uuidKey (cacheInit cs0).uuidCtr) none
          (store (cacheInit cs0) (PyVal.pyint 7)).2).1
        = Except.ok (some (PyVal.pybytes (serialize (PyVal.pyint 7)))) ∧
      (∀ b, serialize (PyVal.pybytes b) = b) ∧
      get "nope" none (cacheInit cs0) = (Except.ok none, cacheInit cs0)) :=
  ⟨rfl, claim_c2_roundtrip_amended (PyVal.pyint 7) (cacheInit cs0) "nope" none rfl⟩

/-- C7: get of a missing key returns the explicit absent value rather than
an error, for every converter — in particular the converter is never
applied — and get_str and get_int of a missing key also return the absent
value. -/
theorem claim_c7_get_missing (key : String) (fn : Option Converter) (s : CState)
    (h : s.kv key = none) :
    get key fn s = (Except.ok none, s) ∧
    get_str key s = (Except.ok none, s) ∧
    get_int key s = (Except.ok none, s) := by
  have hr : rget key s = none := by simp [rget, h]
  exact ⟨by simp only [get, hr], by simp only [get_str, get, hr],
    by simp only [get_int, get, hr]⟩

theorem claim_c7_get_missing_witness :
    (cacheInit cs0).kv "nope" = none ∧
    (get "nope" (some intConverter) (cacheInit cs0) = (Except.ok none, cacheInit cs0) ∧
      get_str "nope" (cacheInit cs0) = (Except.ok none, cacheInit cs0) ∧
      get_int "nope" (cacheInit cs0) = (Except.ok none, cacheInit cs0)) :=
  ⟨rfl, claim_c7_get_missing "nope" (some intConverter) (cacheInit cs0) rfl⟩

/-- C8: get_int round-trips every integer stored through the decorated
store, and when the bytes stored at a key are not a valid integer
representation it fails with ValueError, returning the state untouched. -/
theorem claim_c8_get_int (n : Int) (s : CState) (key b : String) (s2 : CState)
    (hstr : s2.kv key = some (RVal.rstr b)) (hbad : pyIntParse b = none) :
    get_int (uuidKey s.uuidCtr) (store s (PyVal.pyint n)).2
      = (Except.ok (some (PyVal.pyint n)), (store s (PyVal.pyint n)).2) ∧
    get_int key s2 = (Except.error PyErr.valueError, s2) := by
  constructor
  · obtain ⟨-, -, -, -, -, hget, -, -⟩ := store_step s (PyVal.pyint n)
    have hser : serialize (PyVal.pyint n) = intStr n := rfl
    rw [hser] at hget
    simp only [get_int, get, hget, intConverter, pyIntParse_intStr]
  · have hr : rget key s2 = some b := by simp [rget, hstr]
    simp only [get_int, get, hr, intConverter, hbad]

theorem claim_c8_get_int_witness :
    (rset "k" "abc" (cacheInit cs0)).kv "k" = some (RVal.rstr "abc") ∧
    pyIntParse "abc" = none ∧
    (get_int (uuidKey (cacheInit cs0).uuidCtr)
        (store (cacheInit cs0) (PyVal.pyint 5)).2
      = (Except.ok (some (PyVal.pyint 5)), (store (cacheInit cs0) (PyVal.pyint 5)).2) ∧
      get_int "k" (rset "k" "abc" (cacheInit cs0))
        = (Except.error PyErr.valueError, rset "k" "abc" (cacheInit cs0))) :=
  ⟨rfl, rfl,
   claim_c8_get_int 5 (cacheInit cs0) "k" "abc" (rset "k" "abc" (cacheInit cs0)) rfl rfl⟩

end Exercise

namespace Exercise

/-- C4: for any history-wrapped operation, the serialized input is pushed
to the inputs list before the underlying operation runs (the operation
observes the already-pushed state), the output is pushed only after a
successful return, and when the operation fails no output is pushed,
leaving the inputs list exactly one entry longer than the outputs list.
The frame hypothesis states that the wrapped operation itself does not
touch the two history lists, as is the case for the store body. -/
theorem claim_c4_history_failure (qn : String) (m : Method) (s : CState) (a : PyVal)
    (hbal : (lrangeAll (qn ++ ":inputs") s).length
      = (lrangeAll (qn ++ ":outputs") s).length)
    (hframe : ∀ r s2, m (rpush (qn ++ ":inputs") (strArgs1 a) s) a = (r, s2) →
        lrangeAll (qn ++ ":inputs") s2
          = lrangeAll (qn ++ ":inputs") (rpush (qn ++ ":inputs") (strArgs1 a) s) ∧
        lrangeAll (qn ++ ":outputs") s2
          = lrangeAll (qn ++ ":outputs") (rpush (qn ++ ":inputs") (strArgs1 a) s)) :
    (∀ r s2, m (rpush (qn ++ ":inputs") (strArgs1 a) s) a = (Except.ok r, s2) →
        call_history qn m s a = (Except.ok r, rpush (qn ++ ":outputs") r s2) ∧
        lrangeAll (qn ++ ":inputs") (call_history qn m s a).2
          = lrangeAll (qn ++ ":inputs") s ++ [strArgs1 a] ∧
        lrangeAll (qn ++ ":outputs") (call_history qn m s a).2
          = lrangeAll (qn ++ ":outputs") s ++ [r]) ∧
    (∀ e s2, m (rpush (qn ++ ":inputs") (strArgs1 a) s) a = (Except.error e, s2) →
        call_history qn m s a = (Except.error e, s2) ∧
        lrangeAll (qn ++ ":inputs") (call_history qn m s a).2
          = lrangeAll (qn ++ ":inputs") s ++ [strArgs1 a] ∧
        lrangeAll (qn ++ ":outputs") (call_history qn m s a).2
          = lrangeAll (qn ++ ":outputs") s ∧
        (lrangeAll (qn ++ ":inputs") (call_history qn m s a).2).length
          = (lrangeAll (qn ++ ":outputs") (call_history qn m s a).2).length + 1) := by
  have hne : (qn ++ ":inputs") ≠ (qn ++ ":outputs") := in_ne_out qn
  have hpushIn : lrangeAll (qn ++ ":inputs") (rpush (qn ++ ":inputs") (strArgs1 a) s)
      = lrangeAll (qn ++ ":inputs") s ++ [strArgs1 a] := lrangeAll_rpush_same _ _ _
  have hpushOut : lrangeAll (qn ++ ":outputs") (rpush (qn ++ ":inputs") (strArgs1 a) s)
      = lrangeAll (qn ++ ":outputs") s :=
    lrangeAll_congr_kv _ _ _ (kv_rpush_ne _ _ _ _ hne.symm)
  constructor
  · intro r s2 hm
    have heq : call_history qn m s a = (Except.ok r, rpush (qn ++ ":outputs") r s2) := by
      simp only [call_history]
      rw [hm]
    obtain ⟨hfi, hfo⟩ := hframe (Except.ok r) s2 hm
    refine ⟨heq, ?_, ?_⟩
    · rw [heq]
      have h1 : lrangeAll (qn ++ ":inputs") (rpush (qn ++ ":outputs") r s2)
          = lrangeAll (qn ++ ":inputs") s2 :=
        lrangeAll_congr_kv _ _ _ (kv_rpush_ne _ _ _ _ hne)
      rw [h1, hfi, hpushIn]
    · rw [heq]
      have h1 : lrangeAll (qn ++ ":outputs") (rpush (qn ++ ":outputs") r s2)
          = lrangeAll (qn ++ ":outputs") s2 ++ [r] := lrangeAll_rpush_same _ _ _
      rw [h1, hfo, hpushOut]
  · intro e s2 hm
    have heq : call_history qn m s a = (Except.error e, s2) := by
      simp only [call_history]
      rw [hm]
    obtain ⟨hfi, hfo⟩ := hframe (Except.error e) s2 hm
    have hin : lrangeAll (qn ++ ":inputs") s2
        = lrangeAll (qn ++ ":inputs") s ++ [strArgs1 a] := by rw [hfi, hpushIn]
    have hout : lrangeAll (qn ++ ":outputs") s2 = lrangeAll (qn ++ ":outputs") s := by
      rw [hfo, hpushOut]
    refine ⟨heq, by rw [heq]; exact hin, by rw [heq]; exact hout, ?_⟩
    rw [heq]
    simp only [hin, hout, List.length_append, List.length_cons, List.length_nil]
    omega

/-- Wrapped operation that always raises, used by the C4 witness. -/
def failM : Method := fun st _ => (Except.error PyErr.valueError, st)

theorem claim_c4_history_failure_witness :
    (lrangeAll ("op" ++ ":inputs") (cacheInit cs0)).length
      = (lrangeAll ("op" ++ ":outputs") (cacheInit cs0)).length ∧
    (∀ r s2, failM (rpush ("op" ++ ":inputs") (strArgs1 (PyVal.pyint 1)) (cacheInit cs0))
        (PyVal.pyint 1) = (r, s2) →
        lrangeAll ("op" ++ ":inputs") s2
          = lrangeAll ("op" ++ ":inputs")
              (rpush ("op" ++ ":inputs") (strArgs1 (PyVal.pyint 1)) (cacheInit cs0)) ∧
        lrangeAll ("op" ++ ":outputs") s2
          = lrangeAll ("op" ++ ":outputs")
              (rpush ("op" ++ ":inputs") (strArgs1 (PyVal.pyint 1)) (cacheInit cs0))) ∧
    (∀ e s2, failM (rpush ("op" ++ ":inputs") (strArgs1 (PyVal.pyint 1)) (cacheInit cs0))
        (PyVal.pyint 1) = (Except.error e, s2) →
        call_history "op" failM (cacheInit cs0) (PyVal.pyint 1) = (Except.error e, s2) ∧
        lrangeAll ("op" ++ ":inputs")
            (call_history "op" failM (cacheInit cs0) (PyVal.pyint 1)).2
          = lrangeAll ("op" ++ ":inputs") (cacheInit cs0) ++ [strArgs1 (PyVal.pyint 1)] ∧
        lrangeAll ("op" ++ ":outputs")
            (call_history "op" failM (cacheInit cs0) (PyVal.pyint 1)).2
          = lrangeAll ("op" ++ ":outputs") (cacheInit cs0) ∧
        (lrangeAll ("op" ++ ":inputs")
            (call_history "op" failM (cacheInit cs0) (PyVal.pyint 1)).2).length
          = (lrangeAll ("op" ++ ":outputs")
              (call_history "op" failM (cacheInit cs0) (PyVal.pyint 1)).2).length + 1) :=
  ⟨rfl,
   fun r s2 h => by cases h; exact ⟨rfl, rfl⟩,
   (claim_c4_history_failure "op" failM (cacheInit cs0) (PyVal.pyint 1) rfl
     (fun r s2 h => by cases h; exact ⟨rfl, rfl⟩)).2⟩

/-- C6: replay reads the two history lists, writes nothing back (the state
it returns is the state it was given), emits the summary line reporting
the number of recorded inputs, pairs the lists positionally up to the
shorter length with one formatted line per pair, and with no recorded
calls reports zero calls and an empty trace. -/
theorem claim_c6_replay (qn : String) (s : CState) :
    (replay qn s).2 = s ∧
    (replay qn s).1.length
      = 1 + min (lrangeAll (qn ++ ":inputs") s).length
          (lrangeAll (qn ++ ":outputs") s).length ∧
    (replay qn s).1[0]?
      = some (qn ++ " was called "
          ++ natStr (lrangeAll (qn ++ ":inputs") s).length ++ " times:") ∧
    (∀ i a b, (lrangeAll (qn ++ ":inputs") s)[i]? = some a →
        (lrangeAll (qn ++ ":outputs") s)[i]? = some b →
        (replay qn s).1[i + 1]? = some (formatLine qn a b)) ∧
    (lrangeAll (qn ++ ":inputs") s = [] →
        (replay qn s).1 = [qn ++ " was called 0 times:"]) := by
  refine ⟨rfl, ?_, ?_, ?_, ?_⟩
  · simp only [replay, List.length_cons, List.length_zipWith]
    omega
  · simp [replay]
  · intro i a b ha hb
    simp only [replay, List.getElem?_cons_succ]
    exact zipWith_getElem_some _ _ _ i a b ha hb
  · intro h
    simp [replay, h, header_zero qn]

theorem claim_c6_replay_witness :
    (lrangeAll ("op" ++ ":inputs")
        (rpush ("op" ++ ":inputs") "(1,)"
          (rpush ("op" ++ ":outputs") "uuid-0" (cacheInit cs0))))[0]? = some "(1,)" ∧
    (lrangeAll ("op" ++ ":outputs")
        (rpush ("op" ++ ":inputs") "(1,)"
          (rpush ("op" ++ ":outputs") "uuid-0" (cacheInit cs0))))[0]? = some "uuid-0" ∧
    (replay "op"
        (rpush ("op" ++ ":inputs") "(1,)"
          (rpush ("op" ++ ":outputs") "uuid-0" (cacheInit cs0)))).1[0 + 1]?
      = some (formatLine "op" "(1,)" "uuid-0") :=
  ⟨rfl, rfl,
   (claim_c6_replay "op"
       (rpush ("op" ++ ":inputs") "(1,)"
         (rpush ("op" ++ ":outputs") "uuid-0" (cacheInit cs0)))).2.2.2.1
     0 "(1,)" "uuid-0" rfl rfl⟩

end Exercise

/-! ## Embedding of web.py -/

namespace Web

/-- State of the web-cache embedding: the Redis key space (value together
with an optional absolute expiry instant), the current wall-clock time,
and the log of invocations of the underlying HTTP fetch. -/
structure WebState where
  kv : String → Option (String × Option Nat)
  now : Nat
  fetchLog : List String

def wupd (f : String → Option (String × Option Nat)) (k : String)
    (v : Option (String × Option Nat)) : String → Option (String × Option Nat) :=
  fun k2 => if k2 = k then v else f k2

/-- Redis GET with native expiry: an entry whose expiry instant has been
reached reads back as absent. -/
def wget (k : String) (s : WebState) : Option String :=
  match s.kv k with
  | none => none
  | some (v, none) => some v
  | some (v, some e) => if s.now < e then some v else none

/-- Integer reading of a counter key, 0 when absent. -/
def webCounter (k : String) (s : WebState) : Int :=
  ((wget k s).bind pyIntParse).getD 0

/-- Expiry that survives an INCR: Redis keeps the TTL of a live entry and
treats an expired one as deleted. -/
def liveExpiry (k : String) (s : WebState) : Option Nat :=
  match s.kv k with
  | some (_, some e) => if s.now < e then some e else none
  | _ => none

/-- Redis INCR: successor of the current integer value (0 when absent),
keeping a live TTL. -/
def wincr (k : String) (s : WebState) : Int × WebState :=
  let cur := webCounter k s
  (cur + 1, { s with kv := wupd s.kv k (some (intStr (cur + 1), liveExpiry k s)) })

/-- Redis SETEX: write the value with an absolute expiry now + ttl. -/
def wsetex (k : String) (ttl : Nat) (v : String) (s : WebState) : WebState :=
  { s with kv := wupd s.kv k (some (v, some (s.now + ttl))) }

/-- Passage of wall-clock time between calls. -/
def tick (d : Nat) (s : WebState) : WebState := { s with now := s.now + d }

def PageFn : Type := String → WebState → String × WebState

/-- Underlying HTTP fetch, requests.get(url).text: an external function of
the url, with each invocation recorded in the fetch log. -/
def fetchImpl (fetch : String → String) : PageFn :=
  fun url s => (fetch url, { s with fetchLog := s.fetchLog ++ [url] })

/-- Truthiness of the bytes-or-None result of r.get: None and the empty
byte string are both falsy. -/
def truthy : Option String → Bool
  | none => false
  | some v => !(v == "")

/-- Decorator cache_result(expire): return the cached value when the
cached bytes are truthy, otherwise delegate and SETEX the result. -/
def cache_result (expire : Nat) (method : PageFn) : PageFn :=
  fun url s =>
    let cd := wget url s
    if truthy cd then (cd.getD "", s)
    else
      let r := method url s
      (r.1, wsetex url expire r.1 r.2)

/-- Decorator count_url_access: INCR the counter at count:url, then
delegate. -/
def count_url_access (method : PageFn) : PageFn :=
  fun url s => method url (wincr ("count:" ++ url) s).2

/-- get_page as exported: count_url_access outside cache_result(10)
outside the raw fetch, matching the decorator stack in the source. -/
def get_page (fetch : String → String) : PageFn :=
  count_url_access (cache_result 10 (fetchImpl fetch))

/-- A key carrying no TTL (absent, or present without expiry); counter
keys in this program are only ever written by INCR and stay in this
class. -/
def hasNoTTL (k : String) (s : WebState) : Bool :=
  match s.kv k with
  | some (_, some _) => false
  | _ => true

/-- A sequence of get_page calls with the given clock advances before each
call. -/
def callSeq (fetch : String → String) (url : String) : List Nat → WebState → WebState
  | [], s => s
  | d :: ds, s => callSeq fetch url ds (get_page fetch url (tick d s)).2

/-- Empty starting state for concrete scenarios. -/
def w0 : WebState := { kv := fun _ => none, now := 0, fetchLog := [] }

/-- External fetch whose pages are all empty. -/
def emptyFetch : String → String := fun _ => ""

theorem count_key_ne (url : String) : ("count:" ++ url) ≠ url := by
  intro h
  have h2 : ("count:" ++ url).data.length = url.data.length := by rw [h]
  rw [String.data_append, List.length_append] at h2
  have h3 : ("count:").data.length = 6 := rfl
  omega

theorem kv_wincr_ne (k k2 : String) (s : WebState) (h : k2 ≠ k) :
    ((wincr k s).2).kv k2 = s.kv k2 := by
  simp [wincr, wupd, h]

theorem kv_wincr_same (k : String) (s : WebState) :
    ((wincr k s).2).kv k = some (intStr (webCounter k s + 1), liveExpiry k s) := by
  simp [wincr, wupd]

theorem kv_wsetex_ne (k k2 : String) (ttl : Nat) (v : String) (s : WebState)
    (h : k2 ≠ k) : (wsetex k ttl v s).kv k2 = s.kv k2 := by
  simp [wsetex, wupd, h]

theorem kv_wsetex_same (k : String) (ttl : Nat) (v : String) (s : WebState) :
    (wsetex k ttl v s).kv k = some (v, some (s.now + ttl)) := by
  simp [wsetex, wupd]

theorem now_wincr (k : String) (s : WebState) : ((wincr k s).2).now = s.now := rfl

theorem now_wsetex (k : String) (ttl : Nat) (v : String) (s : WebState) :
    (wsetex k ttl v s).now = s.now := rfl

theorem fetchLog_wincr (k : String) (s : WebState) :
    ((wincr k s).2).fetchLog = s.fetchLog := rfl

theorem wget_congr (k : String) (s s2 : WebState) (hkv : s2.kv k = s.kv k)
    (hnow : s2.now = s.now) : wget k s2 = wget k s := by
  unfold wget
  rw [hkv, hnow]

theorem webCounter_congr (k : String) (s s2 : WebState) (hkv : s2.kv k = s.kv k)
    (hnow : s2.now = s.now) : webCounter k s2 = webCounter k s := by
  unfold webCounter
  rw [wget_congr k s s2 hkv hnow]

theorem hasNoTTL_congr (k : String) (s s2 : WebState) (hkv : s2.kv k = s.kv k) :
    hasNoTTL k s2 = hasNoTTL k s := by
  unfold hasNoTTL
  rw [hkv]

theorem liveExpiry_lt (k : String) (s : WebState) (e : Nat)
    (h : liveExpiry k s = some e) : s.now < e := by
  unfold liveExpiry at h
  split at h
  · split at h
    · injection h with h2
      subst h2
      assumption
    · cases h
  · cases h

theorem wget_wincr_same (k : String) (s : WebState) :
    wget k ((wincr k s).2) = some (intStr (webCounter k s + 1)) := by
  unfold wget
  rw [kv_wincr_same]
  cases hle : liveExpiry k s with
  | none => rfl
  | some e =>
    have hlt : s.now < e := liveExpiry_lt k s e hle
    have hnow : ((wincr k s).2).now = s.now := rfl
    simp [hnow, hlt]

theorem webCounter_wincr_same (k : String) (s : WebState) :
    webCounter k ((wincr k s).2) = webCounter k s + 1 := by
  show ((wget k ((wincr k s).2)).bind pyIntParse).getD 0 = webCounter k s + 1
  rw [wget_wincr_same]
  simp [pyIntParse_intStr]

theorem liveExpiry_of_noTTL (k : String) (s : WebState) (h : hasNoTTL k s = true) :
    liveExpiry k s = none := by
  unfold hasNoTTL at h
  unfold liveExpiry
  split
  · next heq =>
    rw [heq] at h
    cases h
  · rfl

theorem hasNoTTL_wincr_same (k : String) (s : WebState) (h : hasNoTTL k s = true) :
    hasNoTTL k ((wincr k s).2) = true := by
  unfold hasNoTTL
  rw [kv_wincr_same, liveExpiry_of_noTTL k s h]

theorem hasNoTTL_tick (k : String) (d : Nat) (s : WebState) :
    hasNoTTL k (tick d s) = hasNoTTL k s := rfl

theorem webCounter_tick (k : String) (d : Nat) (s : WebState)
    (h : hasNoTTL k s = true) : webCounter k (tick d s) = webCounter k s := by
  unfold webCounter wget
  unfold hasNoTTL at h
  cases hkv : s.kv k with
  | none => simp [tick, hkv]
  | some p =>
    obtain ⟨v, oe⟩ := p
    cases oe with
    | none => simp [tick, hkv]
    | some e =>
      rw [hkv] at h
      cases h

end Web

namespace Web

theorem get_page_eq (fetch : String → String) (url : String) (s : WebState) :
    get_page fetch url s
      = cache_result 10 (fetchImpl fetch) url ((wincr ("count:" ++ url) s).2) := rfl

theorem cache_result_hit (m : PageFn) (url : String) (s : WebState)
    (h : truthy (wget url s) = true) :
    cache_result 10 m url s = ((wget url s).getD "", s) := by
  simp [cache_result, h]

theorem cache_result_miss (m : PageFn) (url : String) (s : WebState)
    (h : truthy (wget url s) = false) :
    cache_result 10 m url s = ((m url s).1, wsetex url 10 (m url s).1 (m url s).2) := by
  simp [cache_result, h]

theorem wget_of_kv_live (k : String) (s : WebState) (v : String) (e : Nat)
    (hkv : s.kv k = some (v, some e)) (hlt : s.now < e) : wget k s = some v := by
  unfold wget
  rw [hkv]
  simp [hlt]

theorem wget_of_kv_dead (k : String) (s : WebState) (v : String) (e : Nat)
    (hkv : s.kv k = some (v, some e)) (hge : ¬ s.now < e) : wget k s = none := by
  unfold wget
  rw [hkv]
  simp [hge]

/-- Observations of one get_page call that misses the cache: the fetched
content is returned, the fetch log gains the url, and the content is
cached under the url with expiry ten units from now. -/
theorem get_page_miss (fetch : String → String) (url : String) (s : WebState)
    (h : truthy (wget url s) = false) :
    (get_page fetch url s).1 = fetch url ∧
    (get_page fetch url s).2.fetchLog = s.fetchLog ++ [url] ∧
    (get_page fetch url s).2.kv url = some (fetch url, some (s.now + 10)) ∧
    (get_page fetch url s).2.now = s.now := by
  rw [get_page_eq]
  have h1 : wget url ((wincr ("count:" ++ url) s).2) = wget url s :=
    wget_congr url s _ (kv_wincr_ne _ _ _ (count_key_ne url).symm) rfl
  have htr : truthy (wget url ((wincr ("count:" ++ url) s).2)) = false := by
    rw [h1]
    exact h
  rw [cache_result_miss _ _ _ htr]
  refine ⟨rfl, rfl, ?_, rfl⟩
  rw [kv_wsetex_same]
  rfl

/-- Observations of one get_page call that hits the cache with truthy
content: the cached value is returned, the fetch log does not change, and
the cache entry at the url is not mutated. -/
theorem get_page_hit (fetch : String → String) (url : String) (s : WebState)
    (v : String) (hv : wget url s = some v) (hne : v ≠ "") :
    (get_page fetch url s).1 = v ∧
    (get_page fetch url s).2.fetchLog = s.fetchLog ∧
    (get_page fetch url s).2.kv url = s.kv url := by
  rw [get_page_eq]
  have hv1 : wget url ((wincr ("count:" ++ url) s).2) = some v := by
    rw [wget_congr url s _ (kv_wincr_ne _ _ _ (count_key_ne url).symm) rfl]
    exact hv
  have htr : truthy (wget url ((wincr ("count:" ++ url) s).2)) = true := by
    rw [hv1]
    simp [truthy, hne]
  rw [cache_result_hit _ _ _ htr]
  refine ⟨?_, rfl, kv_wincr_ne _ _ _ (count_key_ne url).symm⟩
  rw [hv1]
  rfl

/-- One get_page call always advances the access counter of the url by
exactly one and leaves it TTL-free, whether the call hits or misses the
cache. -/
theorem get_page_counter_step (fetch : String → String) (url : String) (s : WebState)
    (h : hasNoTTL ("count:" ++ url) s = true) :
    webCounter ("count:" ++ url) (get_page fetch url s).2
      = webCounter ("count:" ++ url) s + 1 ∧
    hasNoTTL ("count:" ++ url) (get_page fetch url s).2 = true := by
  rw [get_page_eq]
  have hstep := webCounter_wincr_same ("count:" ++ url) s
  have hT := hasNoTTL_wincr_same ("count:" ++ url) s h
  cases htr : truthy (wget url ((wincr ("count:" ++ url) s).2)) with
  | true =>
    rw [cache_result_hit _ _ _ htr]
    exact ⟨hstep, hT⟩
  | false =>
    rw [cache_result_miss _ _ _ htr]
    have hkv : (wsetex url 10 ((fetchImpl fetch url ((wincr ("count:" ++ url) s).2)).1)
        ((fetchImpl fetch url ((wincr ("count:" ++ url) s).2)).2)).kv ("count:" ++ url)
        = ((wincr ("count:" ++ url) s).2).kv ("count:" ++ url) := by
      rw [kv_wsetex_ne _ _ _ _ _ (count_key_ne url)]
      rfl
    have hnow : (wsetex url 10 ((fetchImpl fetch url ((wincr ("count:" ++ url) s).2)).1)
        ((fetchImpl fetch url ((wincr ("count:" ++ url) s).2)).2)).now
        = ((wincr ("count:" ++ url) s).2).now := rfl
    constructor
    · rw [webCounter_congr _ _ _ hkv hnow]
      exact hstep
    · rw [hasNoTTL_congr _ _ _ hkv]
      exact hT

end Web

namespace Web

/-- External fetch with a fixed non-empty page, used by witnesses. -/
def constFetch : String → String := fun _ => "page"

/-- C1 counterexample: for a url whose fetched content is the empty
string, the second call within the TTL window (here at the very same
instant) delegates to the underlying fetch again — the fetch log has two
entries after two calls — because the cache-hit test treats the cached
empty byte string as falsy.  This contradicts the claim that the
underlying fetch is invoked exactly once for every url. -/
theorem claim_c1_counterexample :
    (get_page emptyFetch "u" w0).2.fetchLog = ["u"] ∧
    (get_page emptyFetch "u" (tick 0 (get_page emptyFetch "u" w0).2)).2.fetchLog
      = ["u", "u"] ∧
    (["u", "u"] : List String) ≠ ["u"] :=
  ⟨rfl, rfl, by decide⟩

/-- C1 (amended): for every url whose fetched content is non-empty,
calling get_page twice within the TTL window invokes the underlying fetch
exactly once: the first call fetches and returns the content, the second
call returns the identical cached value with no invocation of the fetch
and no mutation of the cache entry; a further call once the TTL has
elapsed invokes the underlying fetch a second time. -/
theorem claim_c1_ttl_memoization (fetch : String → String) (url : String)
    (s : WebState) (d dLate : Nat) (hmiss : wget url s = none)
    (hne : fetch url ≠ "") (hd : d < 10) (hlate : 10 ≤ dLate) :
    (get_page fetch url s).1 = fetch url ∧
    (get_page fetch url s).2.fetchLog = s.fetchLog ++ [url] ∧
    (get_page fetch url (tick d (get_page fetch url s).2)).1 = fetch url ∧
    (get_page fetch url (tick d (get_page fetch url s).2)).2.fetchLog
      = (get_page fetch url s).2.fetchLog ∧
    (get_page fetch url (tick d (get_page fetch url s).2)).2.kv url
      = (get_page fetch url s).2.kv url ∧
    (get_page fetch url (tick dLate (get_page fetch url s).2)).2.fetchLog
      = (get_page fetch url s).2.fetchLog ++ [url] := by
  have htr0 : truthy (wget url s) = false := by
    rw [hmiss]
    rfl
  obtain ⟨h1r, h1log, h1kv, h1now⟩ := get_page_miss fetch url s htr0
  have hkv2 : (tick d (get_page fetch url s).2).kv url
      = some (fetch url, some (s.now + 10)) := h1kv
  have hnow2 : (tick d (get_page fetch url s).2).now = s.now + d := by
    show (get_page fetch url s).2.now + d = s.now + d
    rw [h1now]
  have h2get : wget url (tick d (get_page fetch url s).2) = some (fetch url) :=
    wget_of_kv_live _ _ _ _ hkv2 (by rw [hnow2]; omega)
  obtain ⟨h2r, h2log, h2kv⟩ := get_page_hit fetch url _ (fetch url) h2get hne
  have hkv3 : (tick dLate (get_page fetch url s).2).kv url
      = some (fetch url, some (s.now + 10)) := h1kv
  have hnow3 : (tick dLate (get_page fetch url s).2).now = s.now + dLate := by
    show (get_page fetch url s).2.now + dLate = s.now + dLate
    rw [h1now]
  have h3get : wget url (tick dLate (get_page fetch url s).2) = none :=
    wget_of_kv_dead _ _ _ _ hkv3 (by rw [hnow3]; omega)
  have htr3 : truthy (wget url (tick dLate (get_page fetch url s).2)) = false := by
    rw [h3get]
    rfl
  obtain ⟨-, h3log, -, -⟩ := get_page_miss fetch url _ htr3
  exact ⟨h1r, h1log, h2r, h2log, h2kv, h3log⟩

theorem claim_c1_ttl_memoization_witness :
    wget "u" w0 = none ∧
    constFetch "u" ≠ "" ∧
    3 < 10 ∧
    10 ≤ 12 ∧
    ((get_page constFetch "u" w0).1 = constFetch "u" ∧
      (get_page constFetch "u" w0).2.fetchLog = w0.fetchLog ++ ["u"] ∧
      (get_page constFetch "u" (tick 3 (get_page constFetch "u" w0).2)).1
        = constFetch "u" ∧
      (get_page constFetch "u" (tick 3 (get_page constFetch "u" w0).2)).2.fetchLog
        = (get_page constFetch "u" w0).2.fetchLog ∧
      (get_page constFetch "u" (tick 3 (get_page constFetch "u" w0).2)).2.kv "u"
        = (get_page constFetch "u" w0).2.kv "u" ∧
      (get_page constFetch "u" (tick 12 (get_page constFetch "u" w0).2)).2.fetchLog
        = (get_page constFetch "u" w0).2.fetchLog ++ ["u"]) :=
  ⟨rfl, by decide, by decide, by decide,
   claim_c1_ttl_memoization constFetch "u" w0 3 12 rfl (by decide) (by decide)
     (by decide)⟩

/-- C9: any number of get_page calls for a url, separated by arbitrary
clock advances and regardless of whether each call hits or misses the
cache, increment the counter at the key count:url by exactly the number
of calls (given that the counter key carries no TTL, as it never does in
this program). -/
theorem claim_c9_access_counter (fetch : String → String) (url : String)
    (ds : List Nat) (s : WebState) (h : hasNoTTL ("count:" ++ url) s = true) :
    webCounter ("count:" ++ url) (callSeq fetch url ds s)
      = webCounter ("count:" ++ url) s + ds.length ∧
    hasNoTTL ("count:" ++ url) (callSeq fetch url ds s) = true := by
  induction ds generalizing s with
  | nil => exact ⟨by simp [callSeq], h⟩
  | cons d ds ih =>
    have ht : hasNoTTL ("count:" ++ url) (tick d s) = true := by
      rw [hasNoTTL_tick]
      exact h
    have hc : webCounter ("count:" ++ url) (tick d s) = webCounter ("count:" ++ url) s :=
      webCounter_tick _ _ _ h
    obtain ⟨hstep, hstepT⟩ := get_page_counter_step fetch url (tick d s) ht
    obtain ⟨hrec, hrecT⟩ := ih ((get_page fetch url (tick d s)).2) hstepT
    refine ⟨?_, ?_⟩
    · rw [callSeq, hrec, hstep, hc]
      simp only [List.length_cons]
      push_cast
      ring
    · rw [callSeq]
      exact hrecT

theorem claim_c9_access_counter_witness :
    hasNoTTL ("count:" ++ "u") w0 = true ∧
    (webCounter ("count:" ++ "u") (callSeq constFetch "u" [0, 0] w0)
        = webCounter ("count:" ++ "u") w0 + ([0, 0] : List Nat).length ∧
      hasNoTTL ("count:" ++ "u") (callSeq constFetch "u" [0, 0] w0) = true) :=
  ⟨rfl, claim_c9_access_counter constFetch "u" [0, 0] w0 rfl⟩

end Web
